import Mathlib

/-!
Verification of the employee leave calendar (src/app.py).

Calendar dates are embedded as natural day numbers: day `0` is the proleptic
Gregorian date 0000-03-01, and consecutive dates are consecutive naturals.
`civilOf`/`daysFromCivil` are the standard era-based Gregorian conversion
(the same computation `datetime`/`pandas` perform), so the fields
`dayYear`, `dayMonth`, `dayOfMonth` and `weekday` of a day number agree with
Python's `date.year`, `date.month`, `date.day` and `date.weekday()`
(Monday = 0).  0000-03-01 was a Wednesday and 146097 (the length of a
400-year era) is divisible by 7, hence `weekday n = (n + 2) % 7`.
-/

namespace LeaveCal

/-- Python `date.weekday()`: Monday = 0 … Sunday = 6. -/
def weekday (n : Nat) : Nat := (n + 2) % 7

/-- A business day in the pandas `freq='B'` sense: Monday–Friday. -/
def isBusinessDay (n : Nat) : Bool := weekday n < 5

/-- Gregorian (year, month, day-of-month) of a day number; era-based civil
conversion, day 0 = 0000-03-01. -/
def civilOf (n : Nat) : Nat × Nat × Nat :=
  let era := n / 146097
  let doe := n % 146097
  let yoe := (doe - doe / 1460 + doe / 36524 - doe / 146096) / 365
  let doy := doe - (365 * yoe + yoe / 4 - yoe / 100)
  let mp := (5 * doy + 2) / 153
  let d := doy - (153 * mp + 2) / 5 + 1
  let m := if mp < 10 then mp + 3 else mp - 9
  (era * 400 + yoe + (if m ≤ 2 then 1 else 0), m, d)

/-- Python `date.year` of a day number. -/
def dayYear (n : Nat) : Nat := (civilOf n).1

/-- Python `date.month` of a day number. -/
def dayMonth (n : Nat) : Nat := (civilOf n).2.1

/-- Python `date.day` (day of month) of a day number. -/
def dayOfMonth (n : Nat) : Nat := (civilOf n).2.2

/-- Day number of a Gregorian date (year ≥ 1, 1 ≤ month ≤ 12). -/
def daysFromCivil (y m d : Nat) : Nat :=
  let y' := if m ≤ 2 then y - 1 else y
  let era := y' / 400
  let yoe := y' % 400
  let mp := (m + 9) % 12
  let doy := (153 * mp + 2) / 5 + d - 1
  era * 146097 + yoe * 365 + yoe / 4 - yoe / 100 + doy

/-- Gregorian leap-year test. -/
def isLeapYear (y : Nat) : Bool := (y % 4 == 0 && y % 100 != 0) || y % 400 == 0

/-- Number of calendar days of a month: the source computes
`month_end = (month_start + pd.offsets.MonthEnd()).date()` and uses
`month_end.day`; `pd.offsets.MonthEnd` rolls to the last calendar day of the
month, whose day-of-month is given by the Gregorian table. -/
def daysInMonth (y m : Nat) : Nat :=
  if m = 2 then (if isLeapYear y then 29 else 28)
  else if m = 4 ∨ m = 6 ∨ m = 9 ∨ m = 11 then 30
  else 31

/-- `pd.date_range(start=s, end=e)` (daily frequency): the consecutive
calendar days of the closed interval `[s, e]`; empty when `e < s`. -/
def date_range (s e : Nat) : List Nat := List.range' s (e + 1 - s)

/-- `get_leave_days` of src/app.py:
`len(pd.date_range(start=start_date, end=end_date, freq='B'))` — the
business days (Monday–Friday) of the closed interval `[start_date, end_date]`. -/
def get_leave_days (start_date end_date : Nat) : Nat :=
  ((date_range start_date end_date).filter isBusinessDay).length

/-- A row of the SQL query feeding the monthly view:
`SELECT l.id, e.name, l.start_date, l.end_date FROM leaves l JOIN employees e
ON l.employee_id = e.id`. -/
structure Leave where
  id : Nat
  name : String
  start_date : Nat
  end_date : Nat
deriving Repr, DecidableEq

/-- A row of the `employees` table. -/
structure Employee where
  id : Nat
  name : String
deriving Repr, DecidableEq

/-- The monthly-view marker `'🌴'`. -/
def palm : String := "🌴"

/-- `calendar[name][i] = '🌴'`: Python list assignment, an `IndexError`
(modelled as `none`) when the index is out of range. -/
def markDay (row : List String) (i : Nat) : Option (List String) :=
  if i < row.length then some (row.set i palm) else none

/-- The marking test of the monthly loop:
`single_date.month == current_month and single_date.weekday() < 5`.
Note it compares the month number only — never the year. -/
def marks (current_month d : Nat) : Bool :=
  dayMonth d == current_month && weekday d < 5

/-- The inner loop of the monthly view: for each date of
`pd.date_range(start, end)` in order, mark `calendar[name][day - 1]` when
`marks` holds; an out-of-range assignment aborts with `IndexError` (`none`). -/
def processDates (current_month : Nat) : List String → List Nat → Option (List String)
  | row, [] => some row
  | row, d :: ds =>
    if marks current_month d then
      match markDay row (dayOfMonth d - 1) with
      | none => none
      | some r => processDates current_month r ds
    else processDates current_month row ds

/-- The per-employee loop body of the monthly view, starting from a given row
and running total: each leave of the employee marks its in-month weekdays and
then adds `get_leave_days` over its whole span to `total_days`
(unconditionally — whether or not the leave touches the month). -/
def employeeRowFrom (current_month : Nat) :
    List String → Nat → List Leave → Option (List String × Nat)
  | row, total, [] => some (row, total)
  | row, total, l :: ls =>
    match processDates current_month row (date_range l.start_date l.end_date) with
    | none => none
    | some r =>
      employeeRowFrom current_month r (total + get_leave_days l.start_date l.end_date) ls

/-- `calendar[name]` for one employee: a fresh row of `ndays` empty markers
(`['' for _ in range(1, month_end.day + 1)]`), `total_days = 0`, then the
employee's leaves processed in order. -/
def employeeCalendar (current_month ndays : Nat) (emp : List Leave) :
    Option (List String × Nat) :=
  employeeRowFrom current_month (List.replicate ndays "") 0 emp

/-- The monthly calendar loop of src/app.py, one `(name, day markers, total)`
entry per employee in table order; the source keys the rows by employee name
in a dict, which coincides with this list when names are distinct (duplicate
names would collapse to one — identical — row).  `none` models the
`IndexError` abort. -/
def projectRows (y current_month : Nat) (leaves : List Leave) :
    List Employee → Option (List (String × List String × Nat))
  | [] => some []
  | e :: es =>
    match employeeCalendar current_month (daysInMonth y current_month)
        (leaves.filter (fun l => l.name == e.name)) with
    | none => none
    | some (row, t) =>
      (projectRows y current_month leaves es).map (fun rest => (e.name, row, t) :: rest)

/-- The monthly grid for target month `(y, m)` (the source instantiates it at
today's year and month). -/
def projectMonth (y m : Nat) (employees : List Employee) (leaves : List Leave) :
    Option (List (String × List String × Nat)) :=
  projectRows y m leaves employees

/-- A date `d` marks slot `i` of a row: the marking test holds and the slot
written is `single_date.day - 1 = i`. -/
def marksAt (current_month i d : Nat) : Bool :=
  marks current_month d && (dayOfMonth d - 1 == i)

/-- Some date of the leave's span marks slot `i`. -/
def leaveMarksAt (current_month i : Nat) (l : Leave) : Bool :=
  (date_range l.start_date l.end_date).any (marksAt current_month i)

/-- Specification-side business-day count (§4.1 of the spec): the number of
calendar days of the closed interval `[s, e]` whose weekday is Monday–Friday. -/
def businessDaysSpec (s e : Nat) : Nat :=
  ((Finset.Icc s e).filter (fun d => weekday d < 5)).card

/-- Claim-side notion "the date falls within the target month": same year and
same month number. -/
def inTargetMonth (y m d : Nat) : Bool := dayYear d == y && dayMonth d == m

/-- Claim-side notion "the leave interval overlaps the target month": at least
one day of the interval falls inside month `(y, m)`. -/
def overlapsMonth (y m : Nat) (l : Leave) : Bool :=
  (date_range l.start_date l.end_date).any (inTargetMonth y m)

/-- Claim-side trailing total (claim C1): the sum of the business-day counts
over exactly those leave intervals of the employee that overlap the month. -/
def claimedTotal (y m : Nat) (leaves : List Leave) (name : String) : Nat :=
  (((leaves.filter (fun l => l.name == name)).filter (overlapsMonth y m)).map
    (fun l => get_leave_days l.start_date l.end_date)).sum

/-- A row of the sqlite `leaves` table. -/
structure LeaveRec where
  id : Nat
  employee_id : Nat
  start_date : Nat
  end_date : Nat
deriving Repr, DecidableEq

/-- A row of the supabase `leaves` table (insertions carry a leave type). -/
structure SupaLeave where
  employee_id : Nat
  start_date : Nat
  end_date : Nat
  leave_type : String
deriving Repr, DecidableEq

/-- The persistent state the source touches: the app reads and deletes
through the sqlite connection (`conn`) but inserts employees/leaves and
deletes employees through the separate supabase client, so both backends are
part of the store. -/
structure Store where
  sqliteEmployees : List Employee
  sqliteLeaves : List LeaveRec
  supabaseEmployees : List Employee
  supabaseLeaves : List SupaLeave
deriving Repr, DecidableEq

/-- `add_leave` of src/app.py: inserts the row into the supabase `leaves`
table. -/
def add_leave (employee_id start_date end_date : Nat) (leave_type : String)
    (st : Store) : Store :=
  { st with supabaseLeaves :=
      st.supabaseLeaves ++ [⟨employee_id, start_date, end_date, leave_type⟩] }

/-- The Add Leave handler: `if leave_end < leave_start` it shows the
validation error "End date must be after start date." (the `false` flag) and
does nothing; otherwise it calls `add_leave`. -/
def addLeaveHandler (employee_id leave_start leave_end : Nat) (leave_type : String)
    (st : Store) : Bool × Store :=
  if leave_end < leave_start then (false, st)
  else (true, add_leave employee_id leave_start leave_end leave_type st)

/-- `delete_leave` of src/app.py: `DELETE FROM leaves WHERE id = ?` on the
sqlite store; no existence check, no error path. -/
def delete_leave (leave_id : Nat) (st : Store) : Store :=
  { st with sqliteLeaves := st.sqliteLeaves.filter (fun l => !(l.id == leave_id)) }

/-- The Remove Employee handler:
`conn.execute("DELETE FROM leaves WHERE employee_id = ?", (emp_id,))` deletes
the selected employee's leaves from sqlite, but the employee row is deleted
only from the supabase `employees` table — and with `employee_id`, the id
selected in the page-top dropdown, not `emp_id` of the employee chosen for
removal. -/
def removeEmployeeHandler (emp_id top_employee_id : Nat) (st : Store) : Store :=
  { st with
    sqliteLeaves := st.sqliteLeaves.filter (fun l => !(l.employee_id == emp_id)),
    supabaseEmployees :=
      st.supabaseEmployees.filter (fun e => !(e.id == top_employee_id)) }

/-- The WHERE clause built by the Search handler: the join condition
`l.employee_id = e.id`, the name equality unless the filter is the `"All"`
sentinel, `date(l.start_date) >= date(?)` when a window start is given and
`date(l.end_date) <= date(?)` when a window end is given. -/
def matchesSearch (search_name : String) (search_start search_end : Option Nat)
    (e : Employee) (l : LeaveRec) : Bool :=
  e.id == l.employee_id
    && (search_name == "All" || e.name == search_name)
    && (match search_start with | none => true | some w => decide (w ≤ l.start_date))
    && (match search_end with | none => true | some w => decide (l.end_date ≤ w))

/-- The Search handler's query
`SELECT l.id, e.name, l.start_date, l.end_date FROM leaves l JOIN employees e
ON l.employee_id = e.id WHERE 1=1 [AND e.name = ?] [AND date(l.start_date) >=
date(?)] [AND date(l.end_date) <= date(?)]` over the sqlite store. -/
def searchHandler (search_name : String) (search_start search_end : Option Nat)
    (st : Store) : List (Nat × String × Nat × Nat) :=
  st.sqliteLeaves.flatMap (fun l =>
    st.sqliteEmployees.filterMap (fun e =>
      if matchesSearch search_name search_start search_end e l
      then some (l.id, e.name, l.start_date, l.end_date) else none))

/-- The unfiltered leave listing (the Manage Leave / calendar query): the join
of the sqlite `leaves` and `employees` tables. -/
def listLeaves (st : Store) : List (Nat × String × Nat × Nat) :=
  searchHandler "All" none none st

end LeaveCal

namespace LeaveCal

theorem markDay_length {row res : List String} {i : Nat}
    (h : markDay row i = some res) : res.length = row.length := by
  unfold markDay at h
  split at h
  · cases h; simp
  · cases h

theorem markDay_getElem {row res : List String} {i : Nat}
    (h : markDay row i = some res) :
    i < row.length ∧ ∀ j, res[j]? = if i = j then some palm else row[j]? := by
  unfold markDay at h
  split at h
  next hlt =>
    cases h
    refine ⟨hlt, fun j => ?_⟩
    rw [List.getElem?_set]
    split
    · simp [hlt]
    · rfl
  next => cases h

theorem processDates_length (m : Nat) :
    ∀ (ds : List Nat) (row res : List String),
      processDates m row ds = some res → res.length = row.length := by
  intro ds
  induction ds with
  | nil =>
    intro row res h
    simp only [processDates, Option.some.injEq] at h
    rw [h]
  | cons d ds ih =>
    intro row res h
    simp only [processDates] at h
    split at h
    · split at h
      · cases h
      next r heq =>
        rw [ih r res h, markDay_length heq]
    · exact ih row res h

theorem processDates_char (m : Nat) :
    ∀ (ds : List Nat) (row res : List String),
      processDates m row ds = some res →
      ∀ i, res[i]? = if ds.any (marksAt m i) then some palm else row[i]? := by
  intro ds
  induction ds with
  | nil =>
    intro row res h i
    simp only [processDates, Option.some.injEq] at h
    rw [h]
    simp
  | cons d ds ih =>
    intro row res h i
    simp only [processDates] at h
    split at h
    next hm =>
      split at h
      · cases h
      next r heq =>
        have hr := ih r res h i
        have hmk := (markDay_getElem heq).2 i
        rw [hr, hmk, List.any_cons]
        by_cases hany : ds.any (marksAt m i) = true
        · simp [hany]
        · by_cases hix : dayOfMonth d - 1 = i
          · simp [hany, hix, marksAt, hm]
          · simp [hany, hix, marksAt, hm]
    next hm =>
      have hr := ih row res h i
      rw [hr, List.any_cons]
      have hmf : marks m d = false := by
        revert hm
        cases marks m d <;> simp
      simp [marksAt, hmf]

theorem processDates_no_marks (m : Nat) :
    ∀ (ds : List Nat) (row : List String),
      (∀ d ∈ ds, marks m d = false) →
      processDates m row ds = some row := by
  intro ds
  induction ds with
  | nil => intro row _; rfl
  | cons d ds ih =>
    intro row h
    simp only [processDates]
    rw [if_neg (by simp [h d (List.mem_cons_self d ds)])]
    exact ih row (fun d' hd' => h d' (List.mem_cons_of_mem _ hd'))

theorem employeeRowFrom_char (m : Nat) :
    ∀ (ls : List Leave) (row : List String) (total : Nat) (res : List String × Nat),
      employeeRowFrom m row total ls = some res →
      (∀ i, res.1[i]? = if ls.any (leaveMarksAt m i) then some palm else row[i]?)
      ∧ res.2 = total + (ls.map (fun l => get_leave_days l.start_date l.end_date)).sum
      ∧ res.1.length = row.length := by
  intro ls
  induction ls with
  | nil =>
    intro row total res h
    simp only [employeeRowFrom, Option.some.injEq] at h
    rw [← h]
    simp
  | cons l ls ih =>
    intro row total res h
    simp only [employeeRowFrom] at h
    split at h
    · cases h
    next r heq =>
      obtain ⟨h1, h2, h3⟩ := ih r (total + get_leave_days l.start_date l.end_date) res h
      refine ⟨fun i => ?_, ?_, ?_⟩
      · rw [h1 i, processDates_char m _ row r heq i, List.any_cons]
        by_cases hany : ls.any (leaveMarksAt m i) = true
        · simp [hany]
        · by_cases hl : leaveMarksAt m i l = true
          · simp only [leaveMarksAt] at hl
            simp [hany, hl, leaveMarksAt]
          · simp only [leaveMarksAt] at hl
            simp [hany, hl, leaveMarksAt]
      · rw [h2, List.map_cons, List.sum_cons]
        omega
      · rw [h3, processDates_length m _ row r heq]

theorem employeeRowFrom_no_marks (m : Nat) :
    ∀ (ls : List Leave) (row : List String) (total : Nat),
      (∀ l ∈ ls, ∀ d ∈ date_range l.start_date l.end_date, marks m d = false) →
      employeeRowFrom m row total ls
        = some (row, total + (ls.map (fun l => get_leave_days l.start_date l.end_date)).sum) := by
  intro ls
  induction ls with
  | nil => intro row total _; simp [employeeRowFrom]
  | cons l ls ih =>
    intro row total h
    simp only [employeeRowFrom]
    rw [processDates_no_marks m _ row (h l (List.mem_cons_self l ls))]
    show employeeRowFrom m row (total + get_leave_days l.start_date l.end_date) ls = _
    rw [ih row _ (fun l' hl' => h l' (List.mem_cons_of_mem _ hl'))]
    rw [List.map_cons, List.sum_cons, Nat.add_assoc]

/-- Every grid row comes from `employeeCalendar` on the leaves filtered by the
employee's name. -/
theorem projectRows_mem (y m : Nat) (leaves : List Leave) :
    ∀ (es : List Employee) (g : List (String × List String × Nat)),
      projectRows y m leaves es = some g →
      ∀ name row t, (name, row, t) ∈ g →
        (∃ e ∈ es, e.name = name) ∧
        employeeCalendar m (daysInMonth y m) (leaves.filter (fun l => l.name == name))
          = some (row, t) := by
  intro es
  induction es with
  | nil =>
    intro g h name row t hmem
    simp only [projectRows, Option.some.injEq] at h
    rw [← h] at hmem
    cases hmem
  | cons e es ih =>
    intro g h name row t hmem
    simp only [projectRows] at h
    split at h
    · cases h
    next row' t' heq =>
      cases hrest : projectRows y m leaves es with
      | none => rw [hrest] at h; cases h
      | some rest =>
        rw [hrest] at h
        simp only [Option.map_some', Option.some.injEq] at h
        rw [← h] at hmem
        rcases List.mem_cons.mp hmem with hhd | htl
        · injection hhd with hn h2
          injection h2 with hrow ht
          subst hn; subst hrow; subst ht
          exact ⟨⟨e, List.mem_cons_self e es, rfl⟩, heq⟩
        · obtain ⟨hex, hcal⟩ := ih rest hrest name row t htl
          obtain ⟨e', he', hn⟩ := hex
          exact ⟨⟨e', List.mem_cons_of_mem _ he', hn⟩, hcal⟩

/-- Conversely, every employee of the input yields a grid row. -/
theorem projectRows_mem_of_employee (y m : Nat) (leaves : List Leave) :
    ∀ (es : List Employee) (g : List (String × List String × Nat)),
      projectRows y m leaves es = some g →
      ∀ e ∈ es, ∃ row t,
        employeeCalendar m (daysInMonth y m) (leaves.filter (fun l => l.name == e.name))
          = some (row, t) ∧ (e.name, row, t) ∈ g := by
  intro es
  induction es with
  | nil =>
    intro g _ e he
    cases he
  | cons e0 es ih =>
    intro g h e he
    simp only [projectRows] at h
    split at h
    · cases h
    next row' t' heq =>
      cases hrest : projectRows y m leaves es with
      | none => rw [hrest] at h; cases h
      | some rest =>
        rw [hrest] at h
        simp only [Option.map_some', Option.some.injEq] at h
        rcases List.mem_cons.mp he with he0 | hes
        · subst he0
          exact ⟨row', t', heq, by rw [← h]; exact List.mem_cons_self _ _⟩
        · obtain ⟨row, t, hcal, hmem⟩ := ih rest hrest e hes
          exact ⟨row, t, hcal, by rw [← h]; exact List.mem_cons_of_mem _ hmem⟩

theorem length_filter_range' (p : Nat → Bool) :
    ∀ (n s : Nat), ((List.range' s n).filter p).length
      = ((Finset.Ico s (s + n)).filter (fun d => p d = true)).card := by
  intro n
  induction n with
  | zero => intro s; simp
  | succ k ih =>
    intro s
    have hlt : s < s + (k + 1) := by omega
    rw [List.range'_succ, ← Nat.Ico_insert_succ_left hlt, Nat.succ_eq_add_one,
      Finset.filter_insert]
    have harg : s + 1 + k = s + (k + 1) := by omega
    by_cases hp : p s = true
    · rw [List.filter_cons_of_pos hp, if_pos hp,
        Finset.card_insert_of_not_mem (by simp [Finset.mem_Ico])]
      simp only [List.length_cons]
      rw [ih (s + 1), harg]
    · rw [List.filter_cons_of_neg (by simp [hp]), if_neg hp, ih (s + 1), harg]

/-- C3: `get_leave_days` (the `countBusinessDays` of the spec) counts exactly
the calendar days of `[start, end]` whose weekday is Monday–Friday, and on a
one-day interval gives 1 on a weekday and 0 on a weekend. -/
theorem C3_count_business_days (s e : Nat) (h : s ≤ e) :
    get_leave_days s e = businessDaysSpec s e
    ∧ (weekday s < 5 → get_leave_days s s = 1)
    ∧ (5 ≤ weekday s → get_leave_days s s = 0) := by
  have hone : date_range s s = [s] := by
    unfold date_range
    have h1 : s + 1 - s = 1 := by omega
    rw [h1, List.range'_succ]
    rfl
  refine ⟨?_, ?_, ?_⟩
  · unfold get_leave_days businessDaysSpec date_range
    rw [length_filter_range' isBusinessDay (e + 1 - s) s]
    have h2 : s + (e + 1 - s) = e + 1 := by omega
    rw [h2, Nat.Ico_succ_right]
    congr 1
    apply Finset.filter_congr
    intro d _
    simp [isBusinessDay]
  · intro hw
    unfold get_leave_days
    rw [hone, List.filter_cons_of_pos (by simp [isBusinessDay, hw])]
    rfl
  · intro hw
    unfold get_leave_days
    rw [hone, List.filter_cons_of_neg (by simp [isBusinessDay]; omega)]
    rfl

/-- C3 witness: the full week Mon 2024-01-01 (day 739191) … Sun 2024-01-07. -/
theorem C3_count_business_days_witness :
    (739191 : Nat) ≤ 739197
    ∧ (get_leave_days 739191 739197 = businessDaysSpec 739191 739197
       ∧ (weekday 739191 < 5 → get_leave_days 739191 739191 = 1)
       ∧ (5 ≤ weekday 739191 → get_leave_days 739191 739191 = 0)) :=
  ⟨by decide, C3_count_business_days 739191 739197 (by decide)⟩

/-- C1 counterexample: employee "A" has a single leave on Monday 2024-04-01
(day 739282), which does not overlap March 2024; the grid for March 2024 shows
a trailing total of 1, while the claimed total (sum over intervals overlapping
the month) is 0. -/
theorem C1_counterexample :
    projectMonth 2024 3 [⟨1, "A"⟩] [⟨2, "A", 739282, 739282⟩]
      = some [("A", List.replicate 31 "", 1)]
    ∧ claimedTotal 2024 3 [⟨2, "A", 739282, 739282⟩] "A" = 0
    ∧ dayYear 739282 = 2024 ∧ dayMonth 739282 = 4 ∧ dayOfMonth 739282 = 1
    ∧ (1 : Nat) ≠ 0 := by
  decide

/-- C1 (amended): in the monthly grid, every employee's trailing total equals
the sum of `countBusinessDays(start_date, end_date)` over ALL leave intervals
belonging to that employee in the collection passed in, whether or not they
overlap the month. -/
theorem C1_total_sums_all_intervals (y m : Nat) (employees : List Employee)
    (leaves : List Leave) (g : List (String × List String × Nat))
    (hg : projectMonth y m employees leaves = some g)
    (name : String) (row : List String) (t : Nat)
    (hmem : (name, row, t) ∈ g) :
    t = ((leaves.filter (fun l => l.name == name)).map
          (fun l => get_leave_days l.start_date l.end_date)).sum := by
  obtain ⟨-, hcal⟩ := projectRows_mem y m leaves employees g hg name row t hmem
  obtain ⟨-, h2, -⟩ := employeeRowFrom_char m _ _ _ _ hcal
  simpa using h2

/-- C1 witness: leave on Friday 2024-03-01 (day 739251), March 2024 grid. -/
theorem C1_total_sums_all_intervals_witness :
    projectMonth 2024 3 [⟨1, "A"⟩] [⟨2, "A", 739251, 739251⟩]
      = some [("A", (List.replicate 31 "").set 0 palm, 1)]
    ∧ (1 : Nat) = ((([⟨2, "A", 739251, 739251⟩] : List Leave).filter
          (fun l => l.name == "A")).map
          (fun l => get_leave_days l.start_date l.end_date)).sum :=
  ⟨by decide,
    C1_total_sums_all_intervals 2024 3 [⟨1, "A"⟩] [⟨2, "A", 739251, 739251⟩]
      [("A", (List.replicate 31 "").set 0 palm, 1)] (by decide)
      "A" ((List.replicate 31 "").set 0 palm) 1 (by decide)⟩

/-- C2 counterexample: employee "A" has a single leave on Monday 2023-03-06
(day 738890).  In the grid for March 2024 the slot for day 6 is marked even
though 2023-03-06 does not fall within the target month (wrong year), where
the claim's if-and-only-if requires it to be unmarked. -/
theorem C2_counterexample :
    projectMonth 2024 3 [⟨1, "A"⟩] [⟨2, "A", 738890, 738890⟩]
      = some [("A", (List.replicate 31 "").set 5 palm, 1)]
    ∧ ((List.replicate 31 "").set 5 palm)[5]? = some palm
    ∧ inTargetMonth 2024 3 738890 = false
    ∧ dayYear 738890 = 2023 ∧ dayMonth 738890 = 3 ∧ dayOfMonth 738890 = 6
    ∧ weekday 738890 < 5 := by
  decide

/-- C2 (amended): a day slot of an employee's row is marked if some date of
one of the employee's leave intervals has that day-of-month, the target's
month NUMBER (the year is ignored) and a Monday–Friday weekday; and it is
marked only if such a date exists — in particular weekend dates never produce
a mark. -/
theorem C2_marking_rule (y m : Nat) (employees : List Employee)
    (leaves : List Leave) (g : List (String × List String × Nat))
    (hg : projectMonth y m employees leaves = some g)
    (name : String) (row : List String) (t : Nat)
    (hmem : (name, row, t) ∈ g) :
    (∀ l ∈ leaves.filter (fun l => l.name == name),
       ∀ d ∈ date_range l.start_date l.end_date,
         dayMonth d = m → weekday d < 5 → row[dayOfMonth d - 1]? = some palm)
    ∧ (∀ i, row[i]? = some palm →
        ∃ l ∈ leaves.filter (fun l => l.name == name),
          ∃ d ∈ date_range l.start_date l.end_date,
            dayMonth d = m ∧ weekday d < 5 ∧ dayOfMonth d - 1 = i) := by
  obtain ⟨-, hcal⟩ := projectRows_mem y m leaves employees g hg name row t hmem
  obtain ⟨h1, -, -⟩ := employeeRowFrom_char m _ _ _ _ hcal
  constructor
  · intro l hl d hd hmon hwd
    have hany : (leaves.filter (fun l => l.name == name)).any
        (leaveMarksAt m (dayOfMonth d - 1)) = true := by
      rw [List.any_eq_true]
      refine ⟨l, hl, ?_⟩
      rw [leaveMarksAt, List.any_eq_true]
      exact ⟨d, hd, by simp [marksAt, marks, hmon, hwd]⟩
    have hrow := h1 (dayOfMonth d - 1)
    simp only [hany, if_true] at hrow
    exact hrow
  · intro i hpalm
    have hrow := h1 i
    by_cases hany : (leaves.filter (fun l => l.name == name)).any
        (leaveMarksAt m i) = true
    · rw [List.any_eq_true] at hany
      obtain ⟨l, hl, hlm⟩ := hany
      rw [leaveMarksAt, List.any_eq_true] at hlm
      obtain ⟨d, hd, hm⟩ := hlm
      simp only [marksAt, marks, Bool.and_eq_true, beq_iff_eq,
        decide_eq_true_eq, Nat.beq_eq_true_eq] at hm
      exact ⟨l, hl, d, hd, hm.1.1, hm.1.2, hm.2⟩
    · rw [Bool.not_eq_true] at hany
      simp only [hany, if_false, Bool.false_eq_true] at hrow
      rw [hrow, List.getElem?_replicate] at hpalm
      split at hpalm
      · injection hpalm with he
        exact absurd he (by decide)
      · cases hpalm

/-- C2 witness: the single leave Friday 2024-03-01 in the March 2024 grid. -/
theorem C2_marking_rule_witness :
    projectMonth 2024 3 [⟨1, "A"⟩] [⟨2, "A", 739251, 739251⟩]
      = some [("A", (List.replicate 31 "").set 0 palm, 1)]
    ∧ ((∀ l ∈ ([⟨2, "A", 739251, 739251⟩] : List Leave).filter
          (fun l => l.name == "A"),
        ∀ d ∈ date_range l.start_date l.end_date,
          dayMonth d = 3 → weekday d < 5 →
            ((List.replicate 31 "").set 0 palm)[dayOfMonth d - 1]? = some palm)
      ∧ (∀ i, ((List.replicate 31 "").set 0 palm)[i]? = some palm →
          ∃ l ∈ ([⟨2, "A", 739251, 739251⟩] : List Leave).filter
            (fun l => l.name == "A"),
            ∃ d ∈ date_range l.start_date l.end_date,
              dayMonth d = 3 ∧ weekday d < 5 ∧ dayOfMonth d - 1 = i)) :=
  ⟨by decide,
    C2_marking_rule 2024 3 [⟨1, "A"⟩] [⟨2, "A", 739251, 739251⟩]
      [("A", (List.replicate 31 "").set 0 palm, 1)] (by decide)
      "A" ((List.replicate 31 "").set 0 palm) 1 (by decide)⟩

/-- C4 counterexample: employee "A"'s only leave is Monday 2024-04-01
(day 739282), entirely outside March 2024 (no overlap); the claim requires an
all-empty row AND total 0, but the March 2024 grid shows total 1. -/
theorem C4_counterexample :
    projectMonth 2024 3 [⟨1, "A"⟩] [⟨2, "A", 739282, 739282⟩]
      = some [("A", List.replicate 31 "", 1)]
    ∧ overlapsMonth 2024 3 ⟨2, "A", 739282, 739282⟩ = false
    ∧ dayYear 739282 = 2024 ∧ dayMonth 739282 = 4
    ∧ (1 : Nat) ≠ 0 := by
  decide

/-- C4 (amended): an employee none of whose leave dates have the target's
month NUMBER gets an all-empty row of markers, but the trailing total is the
sum of the business-day counts of all its intervals (0 only when the sum is
0), not 0 in general; an interval outside the target month contributes no
markers (provided its month number also differs) yet always contributes its
full business-day count to the total. -/
theorem C4_no_overlap_row (y m : Nat) (employees : List Employee)
    (leaves : List Leave) (g : List (String × List String × Nat))
    (hg : projectMonth y m employees leaves = some g)
    (name : String) (row : List String) (t : Nat)
    (hmem : (name, row, t) ∈ g)
    (hout : ∀ l ∈ leaves.filter (fun l => l.name == name),
      ∀ d ∈ date_range l.start_date l.end_date, dayMonth d ≠ m) :
    row = List.replicate (daysInMonth y m) ""
    ∧ t = ((leaves.filter (fun l => l.name == name)).map
        (fun l => get_leave_days l.start_date l.end_date)).sum := by
  obtain ⟨-, hcal⟩ := projectRows_mem y m leaves employees g hg name row t hmem
  have hnm : ∀ l ∈ leaves.filter (fun l => l.name == name),
      ∀ d ∈ date_range l.start_date l.end_date, marks m d = false := by
    intro l hl d hd
    simp [marks, hout l hl d hd]
  unfold employeeCalendar at hcal
  rw [employeeRowFrom_no_marks m _ _ 0 hnm] at hcal
  injection hcal with hpair
  injection hpair with hrow ht
  refine ⟨hrow.symm, ?_⟩
  omega

/-- C4 witness: employee "A" has one leave Mon 2024-04-01 … Tue 2024-04-02,
no date of which has month number 3; the March 2024 row is all empty and the
total is 2 — the full business-day count of the off-month interval. -/
theorem C4_no_overlap_row_witness :
    projectMonth 2024 3 [⟨1, "A"⟩] [⟨2, "A", 739282, 739283⟩]
      = some [("A", List.replicate 31 "", 2)]
    ∧ (List.replicate 31 "" = List.replicate (daysInMonth 2024 3) ""
      ∧ (2 : Nat) = ((([⟨2, "A", 739282, 739283⟩] : List Leave).filter
          (fun l => l.name == "A")).map
          (fun l => get_leave_days l.start_date l.end_date)).sum) :=
  ⟨by decide,
    C4_no_overlap_row 2024 3 [⟨1, "A"⟩] [⟨2, "A", 739282, 739283⟩]
      [("A", List.replicate 31 "", 2)] (by decide)
      "A" (List.replicate 31 "") 2 (by decide) (by decide)⟩

/-- C7: every employee row of the monthly grid has exactly as many day
markers as the month has calendar days, and that number is 28, 29, 30 or 31. -/
theorem C7_row_length (y m : Nat) (employees : List Employee)
    (leaves : List Leave) (g : List (String × List String × Nat))
    (hg : projectMonth y m employees leaves = some g)
    (name : String) (row : List String) (t : Nat)
    (hmem : (name, row, t) ∈ g) :
    row.length = daysInMonth y m
    ∧ (daysInMonth y m = 28 ∨ daysInMonth y m = 29
       ∨ daysInMonth y m = 30 ∨ daysInMonth y m = 31) := by
  obtain ⟨-, hcal⟩ := projectRows_mem y m leaves employees g hg name row t hmem
  obtain ⟨-, -, h3⟩ := employeeRowFrom_char m _ _ _ _ hcal
  constructor
  · simpa using h3
  · unfold daysInMonth
    split
    · split
      · exact Or.inr (Or.inl rfl)
      · exact Or.inl rfl
    · split
      · exact Or.inr (Or.inr (Or.inl rfl))
      · exact Or.inr (Or.inr (Or.inr rfl))

/-- C7 witness: the February 2024 (leap) grid of an employee with no leaves. -/
theorem C7_row_length_witness :
    projectMonth 2024 2 [⟨1, "A"⟩] ([] : List Leave)
      = some [("A", List.replicate 29 "", 0)]
    ∧ ((List.replicate 29 "" : List String).length = daysInMonth 2024 2
      ∧ (daysInMonth 2024 2 = 28 ∨ daysInMonth 2024 2 = 29
         ∨ daysInMonth 2024 2 = 30 ∨ daysInMonth 2024 2 = 31)) :=
  ⟨by decide,
    C7_row_length 2024 2 [⟨1, "A"⟩] [] [("A", List.replicate 29 "", 0)]
      (by decide) "A" (List.replicate 29 "") 0 (by decide)⟩

/-- C10 counterexample: the universal form of the claim fails at Thursday
2024-02-29 (day 739250, a weekday with month number 2 in a different year):
projecting February 2025 (28 days), the assignment targets slot 29 of a
28-slot row, so the loop aborts with `IndexError` (`none`) and no grid — and
in particular no marked weekday date — is produced at all. -/
theorem C10_counterexample :
    projectMonth 2025 2 [⟨1, "A"⟩] [⟨2, "A", 739250, 739250⟩] = none
    ∧ dayMonth 739250 = 2 ∧ dayYear 739250 = 2024 ∧ weekday 739250 < 5
    ∧ dayOfMonth 739250 = 29 ∧ daysInMonth 2025 2 = 28 := by
  decide

/-- C10 (amended): the marking test compares only the month number of a
candidate date with the target month, never the year: whenever the grid is
produced, a weekday date of a leave interval lying in the same-numbered month
of a DIFFERENT year is still marked in the employee's row (when the
day-of-month exceeds the target month's length the projection instead aborts
with an index error and produces no grid). -/
theorem C10_marks_ignore_year (y m : Nat) (employees : List Employee)
    (leaves : List Leave) (g : List (String × List String × Nat))
    (hg : projectMonth y m employees leaves = some g)
    (name : String) (row : List String) (t : Nat)
    (hmem : (name, row, t) ∈ g)
    (l : Leave) (hl : l ∈ leaves.filter (fun l => l.name == name))
    (d : Nat) (hd : d ∈ date_range l.start_date l.end_date)
    (hmon : dayMonth d = m) (_hyear : dayYear d ≠ y) (hwd : weekday d < 5) :
    row[dayOfMonth d - 1]? = some palm := by
  obtain ⟨-, hcal⟩ := projectRows_mem y m leaves employees g hg name row t hmem
  obtain ⟨h1, -, -⟩ := employeeRowFrom_char m _ _ _ _ hcal
  have hany : (leaves.filter (fun l => l.name == name)).any
      (leaveMarksAt m (dayOfMonth d - 1)) = true := by
    rw [List.any_eq_true]
    refine ⟨l, hl, ?_⟩
    rw [leaveMarksAt, List.any_eq_true]
    exact ⟨d, hd, by simp [marksAt, marks, hmon, hwd]⟩
  have hrow := h1 (dayOfMonth d - 1)
  simp only [hany, if_true] at hrow
  exact hrow

/-- C10 witness: leave on Monday 2023-03-06 (day 738890), a March date of the
wrong year, still marked in the March 2024 grid. -/
theorem C10_marks_ignore_year_witness :
    projectMonth 2024 3 [⟨1, "A"⟩] [⟨2, "A", 738890, 738890⟩]
      = some [("A", (List.replicate 31 "").set 5 palm, 1)]
    ∧ ((List.replicate 31 "").set 5 palm)[dayOfMonth 738890 - 1]? = some palm :=
  ⟨by decide,
    C10_marks_ignore_year 2024 3 [⟨1, "A"⟩] [⟨2, "A", 738890, 738890⟩]
      [("A", (List.replicate 31 "").set 5 palm, 1)] (by decide)
      "A" ((List.replicate 31 "").set 5 palm) 1 (by decide)
      ⟨2, "A", 738890, 738890⟩ (by decide) 738890 (by decide)
      (by decide) (by decide) (by decide)⟩

/-- C5: evaluating the Remove Employee handler at the failing input.  The
store holds employee 1 "A" (in both backends) with one sqlite leave; removing
"A" (`emp_id = 1`, page-top dropdown also on id 1) deletes A's leave rows from
sqlite — so the leave listing shows zero rows — but the sqlite `employees`
table, the one every read in the app uses, still contains A's record; only
the supabase copy loses a row.  Running the handler twice raises no error and
changes nothing further. -/
theorem C5_remove_employee_bug :
    removeEmployeeHandler 1 1
        ⟨[⟨1, "A"⟩], [⟨10, 1, 739251, 739252⟩], [⟨1, "A"⟩], []⟩
      = ⟨[⟨1, "A"⟩], [], [], []⟩
    ∧ listLeaves (removeEmployeeHandler 1 1
        ⟨[⟨1, "A"⟩], [⟨10, 1, 739251, 739252⟩], [⟨1, "A"⟩], []⟩) = []
    ∧ (removeEmployeeHandler 1 1
        ⟨[⟨1, "A"⟩], [⟨10, 1, 739251, 739252⟩], [⟨1, "A"⟩], []⟩).sqliteEmployees
      = [⟨1, "A"⟩]
    ∧ removeEmployeeHandler 1 1 (removeEmployeeHandler 1 1
        ⟨[⟨1, "A"⟩], [⟨10, 1, 739251, 739252⟩], [⟨1, "A"⟩], []⟩)
      = removeEmployeeHandler 1 1
        ⟨[⟨1, "A"⟩], [⟨10, 1, 739251, 739252⟩], [⟨1, "A"⟩], []⟩ := by
  decide

/-- C6: the Add Leave handler rejects `leave_end < leave_start` with the
validation error (the `false` flag, surfaced as "End date must be after start
date.") and leaves the whole store — in particular the leave listing's row
count — unchanged. -/
theorem C6_add_leave_rejects_invalid (employee_id leave_start leave_end : Nat)
    (leave_type : String) (st : Store)
    (h : leave_end < leave_start) :
    addLeaveHandler employee_id leave_start leave_end leave_type st = (false, st)
    ∧ listLeaves (addLeaveHandler employee_id leave_start leave_end leave_type st).2
      = listLeaves st
    ∧ (listLeaves (addLeaveHandler employee_id leave_start leave_end leave_type st).2).length
      = (listLeaves st).length := by
  have hh : addLeaveHandler employee_id leave_start leave_end leave_type st
      = (false, st) := by
    unfold addLeaveHandler
    rw [if_pos h]
  exact ⟨hh, by rw [hh], by rw [hh]⟩

/-- C6 witness: end day 10 before start day 20, on a store with one employee
and one stored leave. -/
theorem C6_add_leave_rejects_invalid_witness :
    (10 : Nat) < 20
    ∧ (addLeaveHandler 1 20 10 "Annual Leave"
          ⟨[⟨1, "A"⟩], [⟨7, 1, 5, 6⟩], [⟨1, "A"⟩], []⟩
        = (false, ⟨[⟨1, "A"⟩], [⟨7, 1, 5, 6⟩], [⟨1, "A"⟩], []⟩)
      ∧ listLeaves (addLeaveHandler 1 20 10 "Annual Leave"
          ⟨[⟨1, "A"⟩], [⟨7, 1, 5, 6⟩], [⟨1, "A"⟩], []⟩).2
        = listLeaves ⟨[⟨1, "A"⟩], [⟨7, 1, 5, 6⟩], [⟨1, "A"⟩], []⟩
      ∧ (listLeaves (addLeaveHandler 1 20 10 "Annual Leave"
          ⟨[⟨1, "A"⟩], [⟨7, 1, 5, 6⟩], [⟨1, "A"⟩], []⟩).2).length
        = (listLeaves ⟨[⟨1, "A"⟩], [⟨7, 1, 5, 6⟩], [⟨1, "A"⟩], []⟩).length) :=
  ⟨by decide,
    C6_add_leave_rejects_invalid 1 20 10 "Annual Leave"
      ⟨[⟨1, "A"⟩], [⟨7, 1, 5, 6⟩], [⟨1, "A"⟩], []⟩ (by decide)⟩

theorem matchesSearch_iff (search_name : String)
    (search_start search_end : Option Nat) (e : Employee) (l : LeaveRec) :
    matchesSearch search_name search_start search_end e l = true
    ↔ e.id = l.employee_id
      ∧ (search_name ≠ "All" → e.name = search_name)
      ∧ (∀ w, search_start = some w → w ≤ l.start_date)
      ∧ (∀ w, search_end = some w → l.end_date ≤ w) := by
  have hname : (search_name == "All" || e.name == search_name) = true
      ↔ (search_name ≠ "All" → e.name = search_name) := by
    by_cases h : search_name = "All" <;> simp [h]
  unfold matchesSearch
  cases search_start <;> cases search_end <;>
    simp [Bool.and_eq_true, hname, and_assoc]

/-- C8: a row is returned by the Search handler exactly when it is the join
of a stored leave with a stored employee satisfying the three optional
filters: the employee name matches when a (non-"All") filter is given,
`start_date ≥ window.start` when a window start is given, and
`end_date ≤ window.end` when a window end is given. -/
theorem C8_search_filter (search_name : String)
    (search_start search_end : Option Nat) (st : Store)
    (r : Nat × String × Nat × Nat) :
    r ∈ searchHandler search_name search_start search_end st
    ↔ ∃ l ∈ st.sqliteLeaves, ∃ e ∈ st.sqliteEmployees,
        e.id = l.employee_id
        ∧ (search_name ≠ "All" → e.name = search_name)
        ∧ (∀ w, search_start = some w → w ≤ l.start_date)
        ∧ (∀ w, search_end = some w → l.end_date ≤ w)
        ∧ r = (l.id, e.name, l.start_date, l.end_date) := by
  unfold searchHandler
  rw [List.mem_flatMap]
  constructor
  · rintro ⟨l, hl, hr⟩
    rw [List.mem_filterMap] at hr
    obtain ⟨e, he, hre⟩ := hr
    by_cases hc : matchesSearch search_name search_start search_end e l = true
    · rw [if_pos hc] at hre
      injection hre with hre
      obtain ⟨h1, h2, h3, h4⟩ := (matchesSearch_iff search_name search_start search_end e l).mp hc
      exact ⟨l, hl, e, he, h1, h2, h3, h4, hre.symm⟩
    · rw [if_neg hc] at hre
      cases hre
  · rintro ⟨l, hl, e, he, h1, h2, h3, h4, hr⟩
    refine ⟨l, hl, ?_⟩
    rw [List.mem_filterMap]
    refine ⟨e, he, ?_⟩
    rw [if_pos ((matchesSearch_iff search_name search_start search_end e l).mpr
      ⟨h1, h2, h3, h4⟩), hr]

/-- C9: `delete_leave` of a missing id is a no-op — there is no error path at
all in the function — and deleting the same id twice equals deleting it
once. -/
theorem C9_delete_leave_idempotent (leave_id : Nat) (st : Store) :
    ((∀ l ∈ st.sqliteLeaves, l.id ≠ leave_id) → delete_leave leave_id st = st)
    ∧ delete_leave leave_id (delete_leave leave_id st)
      = delete_leave leave_id st := by
  constructor
  · intro h
    unfold delete_leave
    have hf : st.sqliteLeaves.filter (fun l => !(l.id == leave_id))
        = st.sqliteLeaves :=
      List.filter_eq_self.mpr (fun l hl => by simp [h l hl])
    rw [hf]
  · unfold delete_leave
    simp [List.filter_filter]

/-- C9 witness: deleting the absent id 5 from a one-leave store. -/
theorem C9_delete_leave_idempotent_witness :
    delete_leave 5 ⟨[⟨1, "A"⟩], [⟨2, 1, 10, 20⟩], [], []⟩
      = ⟨[⟨1, "A"⟩], [⟨2, 1, 10, 20⟩], [], []⟩
    ∧ delete_leave 5 (delete_leave 5 ⟨[⟨1, "A"⟩], [⟨2, 1, 10, 20⟩], [], []⟩)
      = delete_leave 5 ⟨[⟨1, "A"⟩], [⟨2, 1, 10, 20⟩], [], []⟩ :=
  ⟨(C9_delete_leave_idempotent 5 ⟨[⟨1, "A"⟩], [⟨2, 1, 10, 20⟩], [], []⟩).1
      (by decide),
    (C9_delete_leave_idempotent 5 ⟨[⟨1, "A"⟩], [⟨2, 1, 10, 20⟩], [], []⟩).2⟩

end LeaveCal
